import Mathlib

/-!
Verification of the UofTHacks repository core: the keyword-matching background
resolver (backgroundMatcher.ts) and the motion/collision game loop
(MainGame.tsx), shallowly embedded in Lean 4.

Strings are modelled as `List Char`; JavaScript `toLowerCase`, `includes`,
`trim` and `split(/\s+/)` are embedded for the ASCII fragment the catalog and
inputs live in.  Machine numbers in the game loop are integers in the source
(all constants and updates are integral), so positions are `Int`.
-/

/-! ## JavaScript string primitives -/

/-- Embedding of the JavaScript whitespace class `\s` restricted to ASCII,
by code point: space (32), tab (9), line feed (10), carriage return (13),
vertical tab (11), form feed (12). -/
def isSpace (c : Char) : Bool :=
  decide (c.toNat = 32 ∨ c.toNat = 9 ∨ c.toNat = 10 ∨
    c.toNat = 13 ∨ c.toNat = 11 ∨ c.toNat = 12)

/-- Embedding of `String.prototype.toLowerCase` on ASCII: map the range
`A`–`Z` to `a`–`z`, leave every other character unchanged. -/
def charLower (c : Char) : Char :=
  if 65 ≤ c.toNat ∧ c.toNat ≤ 90 then Char.ofNat (c.toNat + 32) else c

/-- Lower-case every character of a string. -/
def lowerL (l : List Char) : List Char := l.map charLower

/-- The first string appears at the very start of the second. -/
def leadsWith : List Char → List Char → Bool
  | [], _ => true
  | _ :: _, [] => false
  | a :: as, b :: bs => a == b && leadsWith as bs

/-- Embedding of `hay.includes(needle)`: the needle occurs contiguously
somewhere in the hay (the empty needle always occurs). -/
def hasSub (needle : List Char) : List Char → Bool
  | [] => leadsWith needle []
  | c :: t => leadsWith needle (c :: t) || hasSub needle t

/-- Embedding of `input.split(/\s+/)`.  The accumulator is `some cur` while
inside a token (JavaScript emits the piece before each separator match, so a
leading separator emits an empty piece) and `none` while inside a whitespace
run (whose end of string emits a trailing empty piece). -/
def splitWsAux : Option (List Char) → List Char → List (List Char)
  | some cur, [] => [cur.reverse]
  | none, [] => [[]]
  | some cur, c :: cs =>
    if isSpace c then cur.reverse :: splitWsAux none cs
    else splitWsAux (some (c :: cur)) cs
  | none, c :: cs =>
    if isSpace c then splitWsAux none cs
    else splitWsAux (some [c]) cs

/-- Embedding of `input.split(/\s+/)` (see `splitWsAux`). -/
def splitWs (l : List Char) : List (List Char) := splitWsAux (some []) l

/-- Embedding of `String.prototype.trim` (ASCII whitespace). -/
def trimL (l : List Char) : List Char :=
  ((l.dropWhile isSpace).reverse.dropWhile isSpace).reverse

/-! ## Catalog data model (backgroundConfig.ts) -/

/-- Embedding of the `BackgroundImage` record from backgroundConfig.ts:
`{ id, filename, tags }`. -/
structure BackgroundImage where
  id : String
  filename : String
  tags : List String
deriving DecidableEq

/-- Modelled from the spec: backgroundConfig.ts (the catalog data) is not in
src/.  The spec describes a designated `DefaultBackground` record that is
always present in the catalog; its concrete fields are unknown, so a
representative record is used. -/
def defaultBackground : BackgroundImage :=
  ⟨"bg1", "default_plains.png", ["plains", "meadow"]⟩

/-- Modelled from the spec: backgroundConfig.ts (the catalog data) is not in
src/.  The records and tags here follow the examples enumerated in the spec
and in the prompt text of backgroundMatcher.ts (bg4 ocean sunset beach, bg6
magical castle, bg7 space nebula, bg8 autumn park, bg12 city night skyline,
bg13 enchanted garden, bg16 tropical jungle), with the default record a
member of the catalog as §3 of the spec requires. -/
def backgrounds : List BackgroundImage :=
  [defaultBackground,
   ⟨"bg4", "ocean_sunset_beach.png", ["ocean", "sunset", "beach"]⟩,
   ⟨"bg6", "magical_castle.png", ["magical", "castle"]⟩,
   ⟨"bg7", "space_nebula.png", ["space", "nebula"]⟩,
   ⟨"bg8", "autumn_park.png", ["autumn", "park"]⟩,
   ⟨"bg12", "city_night_skyline.png", ["city", "night", "skyline"]⟩,
   ⟨"bg13", "enchanted_garden.png", ["enchanted", "garden"]⟩,
   ⟨"bg16", "tropical_jungle.png", ["tropical", "jungle"]⟩]

/-! ## Keyword Matcher (backgroundMatcher.ts, keywordMatch) -/

/-- Contribution of one input word to one (lower-cased) tag, embedding the
inner `for (const word of words)` chain of keywordMatch: the three branches
are mutually exclusive (`else if` in the source). -/
def wordContrib (tagL w : List Char) : Nat :=
  if w = tagL then 10
  else if 3 < w.length ∧ hasSub w tagL then 3
  else if 3 < tagL.length ∧ hasSub tagL w then 3
  else 0

/-- Score of one tag against the word list and the full lower-cased input:
the word contributions plus the additive full-phrase bonus
(`inputLower.includes(tagLower) && tagLower.length > 3`). -/
def tagScore (words : List (List Char)) (inputL tagL : List Char) : Nat :=
  (words.map (wordContrib tagL)).sum +
    (if hasSub tagL inputL ∧ 3 < tagL.length then 5 else 0)

/-- Cumulative score of a catalog record in keywordMatch: the sum of
`tagScore` over its tags, with the input lower-cased and split on `/\s+/`. -/
def scoreBg (input : String) (bg : BackgroundImage) : Nat :=
  (bg.tags.map (fun tag =>
    tagScore (splitWs (lowerL input.data)) (lowerL input.data) (lowerL tag.data))).sum

/-- The selection loop of keywordMatch: fold over the catalog carrying
`(bestMatch, bestScore)`, updating only on a strictly larger score. -/
def kmGo (input : String) : List BackgroundImage →
    BackgroundImage × Nat → BackgroundImage × Nat
  | [], acc => acc
  | bg :: rest, (b, s) =>
    kmGo input rest
      (if s < scoreBg input bg then (bg, scoreBg input bg) else (b, s))

/-- Embedding of `keywordMatch` from backgroundMatcher.ts, parametric in the
catalog and the default record (the source closes over the imported
`backgrounds` and `defaultBackground`): start from the default with score 0
and keep the first record of strictly maximal positive score. -/
def keywordMatchOn (catalog : List BackgroundImage) (dflt : BackgroundImage)
    (input : String) : BackgroundImage :=
  (kmGo input catalog (dflt, 0)).1

/-- The `keywordMatch` of the source, instantiated at the (spec-modelled)
fixed catalog. -/
def keywordMatch (input : String) : BackgroundImage :=
  keywordMatchOn backgrounds defaultBackground input

/-! ## Background Resolver (backgroundMatcher.ts, matchBackground) -/

/-- Outcome of the one external `fetch` call, as observed by matchBackground:
`fail` covers a network error, a non-2xx status (the source throws and
catches it) and a malformed body (JSON parse failure is thrown and caught;
a missing text field yields an id that matches no record, which the `ok`
branch also covers); `ok id` is a 2xx response whose extracted, trimmed text
payload is `id`. -/
inductive FetchOutcome where
  | fail : FetchOutcome
  | ok : String → FetchOutcome
deriving DecidableEq

/-- Embedding of `matchBackground`, returning the resolved record together
with a flag recording whether the external call was attempted.  `hasKey`
models the presence of the `VITE_OPENAI_API_KEY` credential.  The source
first tests `!userInput` and then whether the trimmed input is the empty
string; the former is subsumed by the latter, so both are the trim test. -/
def matchBackgroundT (hasKey : Bool) (resp : FetchOutcome)
    (userInput : String) : BackgroundImage × Bool :=
  if trimL userInput.data = [] then (defaultBackground, false)
  else if !hasKey then (keywordMatch userInput, false)
  else
    match resp with
    | .fail => (keywordMatch userInput, true)
    | .ok mid =>
      match backgrounds.find? (fun bg => bg.id == mid) with
      | some bg => (bg, true)
      | none => (keywordMatch userInput, true)

/-- The resolved record of `matchBackground` (first component of
`matchBackgroundT`). -/
def matchBackground (hasKey : Bool) (resp : FetchOutcome)
    (userInput : String) : BackgroundImage :=
  (matchBackgroundT hasKey resp userInput).1

/-! ## Static obstacle set and game loop (MainGame.tsx) -/

/-- Embedding of an entry of `staticSprites` from gameConfig.ts:
`{ id, x, y, color }`. -/
structure StaticSprite where
  id : String
  x : Int
  y : Int
  color : String
deriving DecidableEq

/-- Modelled from the spec: gameConfig.ts (the obstacle data and the shared
footprint constant `SPRITE_SIZE`) is not in src/.  The spec fixes the
footprint at 50 in its collision scenario, matching the prototype
`cubeSize = 50` in MainChoosingGame.tsx. -/
def SPRITE_SIZE : Int := 50

/-- Modelled from the spec: gameConfig.ts is not in src/.  The obstacle set
follows the spec scenario of two obstacles at (200,150) and (400,150); ids
and colors are representative (ids are unique as §3 of the spec requires). -/
def staticSprites : List StaticSprite :=
  [⟨"enemy1", 200, 150, "blue"⟩, ⟨"enemy2", 400, 150, "green"⟩]

/-- The per-frame displacement constant `speed = 5` of the source. -/
def speed : Int := 5

/-- The overlap test of `checkCollision` for one sprite: four strict
inequalities comparing the two square footprints of side `SPRITE_SIZE`. -/
def overlaps (xp yp : Int) (s : StaticSprite) : Bool :=
  decide (xp < s.x + SPRITE_SIZE) && decide (xp + SPRITE_SIZE > s.x) &&
    decide (yp < s.y + SPRITE_SIZE) && decide (yp + SPRITE_SIZE > s.y)

/-- Embedding of `checkCollision` from MainGame.tsx.  The source loops over
all sprites with no early exit, calling `setActiveMenu(sprite.id)` on every
overlapping one; successive calls overwrite, so the loop computes the id of
the last overlapping sprite in iteration order (or leaves the menu unset,
`none`, when nothing overlaps — the loop only runs while `activeMenu` is
null). -/
def checkCollision (sprites : List StaticSprite) (xp yp : Int) : Option String :=
  sprites.foldl (fun acc s => if overlaps xp yp s then some s.id else acc) none

/-- The set of currently held arrow keys read by the game loop (membership
in `keysPressed.current`). -/
structure Keys where
  up : Bool
  down : Bool
  left : Bool
  right : Bool
deriving DecidableEq

/-- The position update of one `gameLoop` tick: apply the four key
displacements in source order, then clamp each axis with
`Math.max(0, Math.min(v, viewport - SPRITE_SIZE))`. -/
def stepPos (k : Keys) (vw vh : Int) (p : Int × Int) : Int × Int :=
  (max 0 (min (p.1 + (if k.left then -speed else 0) + (if k.right then speed else 0))
      (vw - SPRITE_SIZE)),
   max 0 (min (p.2 + (if k.up then -speed else 0) + (if k.down then speed else 0))
      (vh - SPRITE_SIZE)))

/-- State of the Motion and Collision Loop: the player position and the
active overlay (`none` is the RUNNING state, `some id` is PAUSED with the
trigger id). -/
structure GameState where
  pos : Int × Int
  activeMenu : Option String
deriving DecidableEq

/-- One scheduling tick of the game loop.  While a menu is active the effect
returns early and no update happens; otherwise compute the clamped candidate
position, run the collision check at it, and commit the position. -/
def tick (sprites : List StaticSprite) (k : Keys) (vw vh : Int)
    (st : GameState) : GameState :=
  match st.activeMenu with
  | some _ => st
  | none =>
    { pos := stepPos k vw vh st.pos,
      activeMenu := checkCollision sprites (stepPos k vw vh st.pos).1
        (stepPos k vw vh st.pos).2 }

/-- The positional nudge of the `onClose` handler: each coordinate moves by
10 away from the triggering sprite (decrement when strictly below the
sprite coordinate, increment otherwise), with no clamp. -/
def nudge (p : Int × Int) (s : StaticSprite) : Int × Int :=
  (if p.1 < s.x then p.1 - 10 else p.1 + 10,
   if p.2 < s.y then p.2 - 10 else p.2 + 10)

/-- Embedding of the dismiss transition (`onClose` in MainGame.tsx): the
overlay renders only when `activeMenu` is set and `staticSprites.find`
locates the active sprite, in which case closing clears the menu and applies
the nudge; in every other state there is no overlay and no handler, so
dismissing changes nothing. -/
def dismiss (sprites : List StaticSprite) (st : GameState) : GameState :=
  match st.activeMenu with
  | none => st
  | some mid =>
    match sprites.find? (fun s => s.id == mid) with
    | none => st
    | some s => { pos := nudge st.pos s, activeMenu := none }

/-- States reachable by the loop from the initial state (player at the
origin, no active menu), under ticks with arbitrary held keys and dismiss
transitions, at fixed viewport dimensions. -/
inductive Reachable (sprites : List StaticSprite) (vw vh : Int) : GameState → Prop where
  | init : Reachable sprites vw vh ⟨(0, 0), none⟩
  | step : ∀ k st, Reachable sprites vw vh st →
      Reachable sprites vw vh (tick sprites k vw vh st)
  | close : ∀ st, Reachable sprites vw vh st →
      Reachable sprites vw vh (dismiss sprites st)

/-- Iterate `tick` with a fixed key set. -/
def run (sprites : List StaticSprite) (k : Keys) (vw vh : Int) :
    Nat → GameState → GameState
  | 0, st => st
  | n + 1, st => run sprites k vw vh n (tick sprites k vw vh st)

/-! ## Reference definitions taken from the specification text -/

/-- Reference scoring of one record, following the specification sentence
word for word: summing over every tag of the record, +10 if any input word
exactly equals the tag, +3 if an input word longer than 3 characters is a
substring of the tag or the tag (longer than 3 characters) is a substring of
an input word, +5 if the tag (longer than 3 characters) appears as a
substring of the lower-cased full input, all rules additive.  This is the
spec side of the refinement claim about keywordMatch and is deliberately
written from the sentence, not from the source. -/
def specRefScoreBg (input : String) (bg : BackgroundImage) : Nat :=
  (bg.tags.map (fun tag =>
    (if (splitWs (lowerL input.data)).any (fun w => w == lowerL tag.data)
      then 10 else 0) +
    (if (splitWs (lowerL input.data)).any (fun w =>
        (decide (3 < w.length) && hasSub w (lowerL tag.data)) ||
          (decide (3 < (lowerL tag.data).length) && hasSub (lowerL tag.data) w))
      then 3 else 0) +
    (if decide (3 < (lowerL tag.data).length) &&
        hasSub (lowerL tag.data) (lowerL input.data)
      then 5 else 0))).sum

/-- The highest cumulative score over a catalog (0 for the empty catalog). -/
def bestScoreOn (input : String) (catalog : List BackgroundImage) : Nat :=
  (catalog.map (scoreBg input)).foldr max 0

/-- The selection rule as the specification states it: the record with the
strictly highest cumulative score, ties keeping the first record in catalog
order, the default when every record scores 0. -/
def specSelect (catalog : List BackgroundImage) (dflt : BackgroundImage)
    (input : String) : BackgroundImage :=
  if bestScoreOn input catalog = 0 then dflt
  else (catalog.find? fun bg =>
    scoreBg input bg == bestScoreOn input catalog).getD dflt

/-- The boundary box of the spec: both coordinates within
`[0, viewport - SPRITE_SIZE]`. -/
def inBounds (vw vh : Int) (p : Int × Int) : Prop :=
  0 ≤ p.1 ∧ p.1 ≤ vw - SPRITE_SIZE ∧ 0 ≤ p.2 ∧ p.2 ≤ vh - SPRITE_SIZE

instance (vw vh : Int) (p : Int × Int) : Decidable (inBounds vw vh p) := by
  unfold inBounds
  infer_instance

/-! ## Helper lemmas: characters and strings -/

theorem char_toNat_ofNat {n : Nat} (h : n < 55296) : (Char.ofNat n).toNat = n := by
  simp [Char.ofNat, Nat.isValidChar, h, Char.toNat, Char.ofNatAux,
    UInt32.toNat, BitVec.toNat_ofNatLt]

theorem isSpace_charLower (c : Char) : isSpace (charLower c) = isSpace c := by
  unfold charLower
  split
  case isTrue h =>
    have h32 : (Char.ofNat (c.toNat + 32)).toNat = c.toNat + 32 :=
      char_toNat_ofNat (by omega)
    simp only [isSpace, h32, decide_eq_decide]
    omega
  case isFalse h => rfl

theorem leadsWith_mem {n h : List Char} (hl : leadsWith n h = true) :
    ∀ c ∈ n, c ∈ h := by
  induction n generalizing h with
  | nil => intro c hc; cases hc
  | cons a as ih =>
    cases h with
    | nil => cases hl
    | cons b bs =>
      rw [leadsWith, Bool.and_eq_true] at hl
      intro c hc
      rcases List.mem_cons.mp hc with rfl | hc
      · exact List.mem_cons.mpr (Or.inl (eq_of_beq hl.1))
      · exact List.mem_cons.mpr (Or.inr (ih hl.2 c hc))

theorem hasSub_mem {n h : List Char} (hs : hasSub n h = true) :
    ∀ c ∈ n, c ∈ h := by
  induction h with
  | nil =>
    cases n with
    | nil => intro c hc; cases hc
    | cons a as => cases hs
  | cons x t ih =>
    rw [hasSub, Bool.or_eq_true] at hs
    rcases hs with hs | hs
    · exact leadsWith_mem hs
    · intro c hc; exact List.mem_cons.mpr (Or.inr (ih hs c hc))

theorem splitWsAux_blank {l : List Char} (h : ∀ c ∈ l, isSpace c = true) :
    ∀ acc, (acc = some [] ∨ acc = none) →
      ∀ w ∈ splitWsAux acc l, w = [] := by
  induction l with
  | nil =>
    intro acc hacc w hw
    rcases hacc with rfl | rfl
    · simp [splitWsAux] at hw; exact hw
    · simp [splitWsAux] at hw; exact hw
  | cons c cs ih =>
    intro acc hacc w hw
    have hc : isSpace c = true := h c (List.mem_cons_self c cs)
    have hcs : ∀ x ∈ cs, isSpace x = true :=
      fun x hx => h x (List.mem_cons.mpr (Or.inr hx))
    rcases hacc with rfl | rfl
    · rw [splitWsAux, if_pos hc] at hw
      rcases List.mem_cons.mp hw with rfl | hw
      · rfl
      · exact ih hcs none (Or.inr rfl) w hw
    · rw [splitWsAux, if_pos hc] at hw
      exact ih hcs none (Or.inr rfl) w hw

theorem splitWs_blank {l : List Char} (h : ∀ c ∈ l, isSpace c = true) :
    ∀ w ∈ splitWs l, w = [] :=
  splitWsAux_blank h (some []) (Or.inl rfl)

theorem trimL_blank {l : List Char} (h : ∀ c ∈ l, isSpace c = true) :
    trimL l = [] := by
  unfold trimL
  have h1 : l.dropWhile isSpace = [] := List.dropWhile_eq_nil_iff.mpr h
  rw [h1]
  rfl

theorem lowerL_blank {l : List Char} (h : ∀ c ∈ l, isSpace c = true) :
    ∀ c ∈ lowerL l, isSpace c = true := by
  intro c hc
  rcases List.mem_map.mp hc with ⟨a, ha, rfl⟩
  rw [isSpace_charLower]
  exact h a ha

theorem splitWsAux_lower (l : List Char) : ∀ acc : Option (List Char),
    splitWsAux (acc.map lowerL) (lowerL l) = (splitWsAux acc l).map lowerL := by
  induction l with
  | nil =>
    intro acc
    cases acc with
    | none => rfl
    | some cur => simp [splitWsAux, lowerL, List.map_reverse]
  | cons c cs ih =>
    intro acc
    by_cases hc : isSpace c = true
    · cases acc with
      | none =>
        show splitWsAux none (charLower c :: lowerL cs) =
          (splitWsAux none (c :: cs)).map lowerL
        rw [splitWsAux, splitWsAux, isSpace_charLower, if_pos hc, if_pos hc]
        simpa using ih none
      | some cur =>
        show splitWsAux (some (lowerL cur)) (charLower c :: lowerL cs) =
          (splitWsAux (some cur) (c :: cs)).map lowerL
        rw [splitWsAux, splitWsAux, isSpace_charLower, if_pos hc, if_pos hc,
          List.map_cons]
        congr 1
        · simp [lowerL, List.map_reverse]
        · simpa using ih none
    · cases acc with
      | none =>
        show splitWsAux none (charLower c :: lowerL cs) =
          (splitWsAux none (c :: cs)).map lowerL
        rw [splitWsAux, splitWsAux, isSpace_charLower, if_neg hc, if_neg hc]
        simpa [lowerL] using ih (some [c])
      | some cur =>
        show splitWsAux (some (lowerL cur)) (charLower c :: lowerL cs) =
          (splitWsAux (some cur) (c :: cs)).map lowerL
        rw [splitWsAux, splitWsAux, isSpace_charLower, if_neg hc, if_neg hc]
        simpa [lowerL] using ih (some (c :: cur))

theorem splitWs_lower (l : List Char) :
    splitWs (lowerL l) = (splitWs l).map lowerL := by
  simpa [splitWs, lowerL] using splitWsAux_lower l (some [])

/-! ## Helper lemmas: keyword scoring -/

theorem wordContrib_nil {tagL : List Char} (h : tagL ≠ []) :
    wordContrib tagL [] = 0 := by
  cases tagL with
  | nil => exact absurd rfl h
  | cons a as => simp [wordContrib, hasSub, leadsWith]

theorem tagScore_blank {inputL tagL : List Char} (words : List (List Char))
    (hw : ∀ w ∈ words, w = []) (htag : ∃ c ∈ tagL, isSpace c = false)
    (hin : ∀ c ∈ inputL, isSpace c = true) :
    tagScore words inputL tagL = 0 := by
  obtain ⟨c0, hc0, hc0s⟩ := htag
  have htagne : tagL ≠ [] := by
    intro h
    rw [h] at hc0
    cases hc0
  have h1 : (words.map (wordContrib tagL)).sum = 0 := by
    apply List.sum_eq_zero
    intro x hx
    rcases List.mem_map.mp hx with ⟨w, hwmem, rfl⟩
    rw [hw w hwmem]
    exact wordContrib_nil htagne
  have h2 : hasSub tagL inputL = false := by
    cases hsub : hasSub tagL inputL with
    | false => rfl
    | true =>
      have := hasSub_mem hsub c0 hc0
      rw [hin c0 this] at hc0s
      cases hc0s
  unfold tagScore
  rw [h1]
  simp [h2]

theorem scoreBg_blank (input : String) (bg : BackgroundImage)
    (hin : ∀ c ∈ input.data, isSpace c = true)
    (htags : ∀ tag ∈ bg.tags, ∃ c ∈ lowerL tag.data, isSpace c = false) :
    scoreBg input bg = 0 := by
  unfold scoreBg
  apply List.sum_eq_zero
  intro x hx
  rcases List.mem_map.mp hx with ⟨tag, htag, rfl⟩
  exact tagScore_blank _ (splitWs_blank (lowerL_blank hin)) (htags tag htag)
    (lowerL_blank hin)

theorem kmGo_fst_of_zero (input : String) (l : List BackgroundImage)
    (h : ∀ bg ∈ l, scoreBg input bg = 0) :
    ∀ b s, (kmGo input l (b, s)).1 = b := by
  induction l with
  | nil => intro b s; rfl
  | cons bg rest ih =>
    intro b s
    rw [kmGo]
    have hbg : scoreBg input bg = 0 := h bg (List.mem_cons_self bg rest)
    rw [hbg]
    rw [if_neg (by omega)]
    exact ih (fun x hx => h x (List.mem_cons.mpr (Or.inr hx))) b s

theorem kmGo_fst_mem (input : String) (l : List BackgroundImage) :
    ∀ b s, (kmGo input l (b, s)).1 = b ∨ (kmGo input l (b, s)).1 ∈ l := by
  induction l with
  | nil => intro b s; exact Or.inl rfl
  | cons bg rest ih =>
    intro b s
    rw [kmGo]
    by_cases hlt : s < scoreBg input bg
    · rw [if_pos hlt]
      rcases ih bg (scoreBg input bg) with h | h
      · exact Or.inr (List.mem_cons.mpr (Or.inl h))
      · exact Or.inr (List.mem_cons.mpr (Or.inr h))
    · rw [if_neg hlt]
      rcases ih b s with h | h
      · exact Or.inl h
      · exact Or.inr (List.mem_cons.mpr (Or.inr h))

theorem keywordMatch_blank (input : String)
    (hin : ∀ c ∈ input.data, isSpace c = true) :
    keywordMatch input = defaultBackground := by
  unfold keywordMatch keywordMatchOn
  apply kmGo_fst_of_zero
  intro bg hbg
  apply scoreBg_blank input bg hin
  fin_cases hbg <;> decide

theorem keywordMatch_mem (input : String) : keywordMatch input ∈ backgrounds := by
  unfold keywordMatch keywordMatchOn
  rcases kmGo_fst_mem input backgrounds defaultBackground 0 with h | h
  · rw [h]
    exact List.mem_cons_self _ _
  · exact h

theorem foldr_max_mem (l : List Nat) : l.foldr max 0 = 0 ∨ l.foldr max 0 ∈ l := by
  induction l with
  | nil => exact Or.inl rfl
  | cons x xs ih =>
    rcases ih with h | h
    · rw [List.foldr_cons, h, Nat.max_zero]
      exact Or.inr (List.mem_cons_self x xs)
    · rcases le_total x (xs.foldr max 0) with hle | hle
      · rw [List.foldr_cons, max_eq_right hle]
        exact Or.inr (List.mem_cons.mpr (Or.inr h))
      · rw [List.foldr_cons, max_eq_left hle]
        exact Or.inr (List.mem_cons_self x xs)

theorem kmGo_fst_eq (input : String) (l : List BackgroundImage) :
    ∀ b s, (kmGo input l (b, s)).1 =
      if bestScoreOn input l ≤ s then b
      else (l.find? fun x => scoreBg input x == bestScoreOn input l).getD b := by
  induction l with
  | nil =>
    intro b s
    have h0 : bestScoreOn input [] = 0 := rfl
    rw [h0, if_pos (Nat.zero_le s)]
    rfl
  | cons bg rest ih =>
    intro b s
    have hbest : bestScoreOn input (bg :: rest) =
        max (scoreBg input bg) (bestScoreOn input rest) := rfl
    have hbr : bestScoreOn input rest = (rest.map (scoreBg input)).foldr max 0 := rfl
    rw [kmGo]
    by_cases hlt : s < scoreBg input bg
    · rw [if_pos hlt, ih]
      by_cases hM : bestScoreOn input rest ≤ scoreBg input bg
      · have hmax : bestScoreOn input (bg :: rest) = scoreBg input bg := by
          rw [hbest]
          exact max_eq_left hM
        rw [if_pos hM, if_neg (by rw [hmax]; omega)]
        simp only [hmax]
        have hf : List.find? (fun x => scoreBg input x == scoreBg input bg)
            (bg :: rest) = some bg :=
          List.find?_cons_of_pos rest (beq_self_eq_true _)
        rw [hf]
        rfl
      · have hM' : scoreBg input bg < bestScoreOn input rest := Nat.not_le.mp hM
        have hmax : bestScoreOn input (bg :: rest) = bestScoreOn input rest := by
          rw [hbest]
          exact max_eq_right (le_of_lt hM')
        rw [if_neg hM, if_neg (by rw [hmax]; omega)]
        simp only [hmax]
        have hf : List.find? (fun x => scoreBg input x == bestScoreOn input rest)
            (bg :: rest) =
            List.find? (fun x => scoreBg input x == bestScoreOn input rest) rest :=
          List.find?_cons_of_neg rest (by
            intro hbeq
            exact absurd (eq_of_beq hbeq) (Nat.ne_of_lt hM'))
        rw [hf]
        have hmem : ∃ bg0 ∈ rest,
            (scoreBg input bg0 == bestScoreOn input rest) = true := by
          rcases foldr_max_mem (rest.map (scoreBg input)) with h0 | h0
          · rw [hbr] at hM'
            omega
          · rcases List.mem_map.mp h0 with ⟨bg0, hbg0, heq⟩
            exact ⟨bg0, hbg0, beq_iff_eq.mpr (by rw [heq, hbr])⟩
        obtain ⟨v, hv⟩ := Option.isSome_iff_exists.mp (List.find?_isSome.mpr hmem)
        rw [hv]
        rfl
    · rw [if_neg hlt, ih]
      have hsc : scoreBg input bg ≤ s := Nat.not_lt.mp hlt
      by_cases hM : bestScoreOn input rest ≤ s
      · rw [if_pos hM, if_pos (by rw [hbest]; exact max_le hsc hM)]
      · have hM' : s < bestScoreOn input rest := Nat.not_le.mp hM
        have hmax : bestScoreOn input (bg :: rest) = bestScoreOn input rest := by
          rw [hbest]
          exact max_eq_right (by omega)
        rw [if_neg hM, if_neg (by rw [hmax]; omega)]
        simp only [hmax]
        have hf : List.find? (fun x => scoreBg input x == bestScoreOn input rest)
            (bg :: rest) =
            List.find? (fun x => scoreBg input x == bestScoreOn input rest) rest :=
          List.find?_cons_of_neg rest (by
            intro hbeq
            have := eq_of_beq hbeq
            omega)
        rw [hf]

/-! ## Helper lemmas: collision loop -/

theorem foldl_last_hit (xp yp : Int) (l : List StaticSprite) :
    ∀ acc : Option String,
      l.foldl (fun a s => if overlaps xp yp s then some s.id else a) acc =
        (l.reverse.find? fun s => overlaps xp yp s).elim acc (fun s => some s.id) := by
  induction l with
  | nil => intro acc; rfl
  | cons x xs ih =>
    intro acc
    rw [List.foldl_cons, ih]
    rw [List.reverse_cons, List.find?_append]
    cases hfind : xs.reverse.find? (fun s => overlaps xp yp s) with
    | some s => rfl
    | none =>
      cases hov : overlaps xp yp x with
      | true => simp [List.find?, hov, Option.or]
      | false => simp [List.find?, hov, Option.or]

theorem checkCollision_eq (sprites : List StaticSprite) (xp yp : Int) :
    checkCollision sprites xp yp =
      (sprites.reverse.find? fun s => overlaps xp yp s).map (fun s => s.id) := by
  unfold checkCollision
  rw [foldl_last_hit]
  cases sprites.reverse.find? (fun s => overlaps xp yp s) <;> rfl

theorem checkCollision_some (sprites : List StaticSprite) (xp yp : Int)
    (i : String) (h : checkCollision sprites xp yp = some i) :
    ∃ s ∈ sprites, s.id = i ∧ overlaps xp yp s = true := by
  rw [checkCollision_eq] at h
  cases hfind : sprites.reverse.find? (fun s => overlaps xp yp s) with
  | none => rw [hfind] at h; cases h
  | some s =>
    rw [hfind] at h
    have hs : s ∈ sprites := List.mem_reverse.mp (List.mem_of_find?_eq_some hfind)
    have hov : overlaps xp yp s = true := List.find?_some hfind
    have hid : s.id = i := by simpa using h
    exact ⟨s, hs, hid, hov⟩

theorem reachable_run (sprites : List StaticSprite) (k : Keys) (vw vh : Int)
    (n : Nat) : ∀ st, Reachable sprites vw vh st →
      Reachable sprites vw vh (run sprites k vw vh n st) := by
  induction n with
  | zero => intro st h; exact h
  | succ m ih => intro st h; exact ih _ (Reachable.step k st h)

/-! ## Claim theorems -/

/-- Claim C4: for every starting position and every combination of held
directional keys (the universally quantified `p` covers any number of
preceding ticks of sustained input), the position produced by the clamp of
one tick lies within `[0, vw - SPRITE_SIZE] × [0, vh - SPRITE_SIZE]`,
provided the viewport is at least the footprint on each axis. -/
theorem c4_clamped_in_bounds (k : Keys) (vw vh : Int) (p : Int × Int)
    (hw : SPRITE_SIZE ≤ vw) (hh : SPRITE_SIZE ≤ vh) :
    inBounds vw vh (stepPos k vw vh p) := by
  unfold stepPos inBounds
  refine ⟨le_max_left 0 _, max_le (by omega) (min_le_right _ _),
    le_max_left 0 _, max_le (by omega) (min_le_right _ _)⟩

/-- Witness for C4 at a concrete viewport, key set and (out-of-range)
previous position. -/
theorem c4_clamped_in_bounds_witness :
    SPRITE_SIZE ≤ (800 : Int) ∧ SPRITE_SIZE ≤ (600 : Int) ∧
      inBounds 800 600 (stepPos ⟨true, true, true, true⟩ 800 600 (10000, -3)) :=
  ⟨by decide, by decide,
    c4_clamped_in_bounds ⟨true, true, true, true⟩ 800 600 (10000, -3)
      (by decide) (by decide)⟩

/-- Claim C5: the overlap test fires exactly when the two square footprints
strictly overlap on both axes (the overlap interval on each axis is
non-degenerate); a footprint exactly touching an obstacle edge (player at
x = 150 against an obstacle at x = 200 with footprint 50) does not trigger,
while overlapping by 1 unit on both axes does. -/
theorem c5_overlap_strict :
    (∀ (xp yp : Int) (s : StaticSprite),
      overlaps xp yp s = true ↔
        (max xp s.x < min (xp + SPRITE_SIZE) (s.x + SPRITE_SIZE) ∧
         max yp s.y < min (yp + SPRITE_SIZE) (s.y + SPRITE_SIZE))) ∧
    overlaps 150 150 ⟨"enemy1", 200, 150, "blue"⟩ = false ∧
    overlaps 151 101 ⟨"enemy1", 200, 150, "blue"⟩ = true := by
  refine ⟨?_, by decide, by decide⟩
  intro xp yp s
  unfold overlaps SPRITE_SIZE
  simp only [Bool.and_eq_true, decide_eq_true_eq, max_lt_iff, lt_min_iff]
  omega

/-- Claim C8: invoking the dismiss transition in the RUNNING state (no
active trigger) is a no-op: the state, in particular the position, is
unchanged. -/
theorem c8_dismiss_noop (sprites : List StaticSprite) (st : GameState)
    (h : st.activeMenu = none) : dismiss sprites st = st := by
  unfold dismiss
  rw [h]

/-- Witness for C8 at a concrete running state. -/
theorem c8_dismiss_noop_witness :
    dismiss staticSprites ⟨(5, 7), none⟩ = ⟨(5, 7), none⟩ :=
  c8_dismiss_noop staticSprites ⟨(5, 7), none⟩ rfl

/-- Claim C9: on a tick from the RUNNING state the clamped candidate
position is committed even when a collision is detected, and whenever the
tick records a trigger the committed position strictly overlaps the
triggering obstacle. -/
theorem c9_commit_and_overlap (sprites : List StaticSprite) (k : Keys)
    (vw vh : Int) (st : GameState) (h : st.activeMenu = none) :
    (tick sprites k vw vh st).pos = stepPos k vw vh st.pos ∧
    ∀ i, (tick sprites k vw vh st).activeMenu = some i →
      ∃ s ∈ sprites, s.id = i ∧
        overlaps (stepPos k vw vh st.pos).1 (stepPos k vw vh st.pos).2 s = true := by
  unfold tick
  rw [h]
  refine ⟨rfl, ?_⟩
  intro i hi
  exact checkCollision_some sprites _ _ i hi

/-- Witness for C9: moving right from (150,150) commits the overlapping
position (155,150) and records the overlap with the first obstacle. -/
theorem c9_commit_and_overlap_witness :
    (tick staticSprites ⟨false, false, false, true⟩ 800 600
        ⟨(150, 150), none⟩).pos = (155, 150) ∧
    ∃ s ∈ staticSprites, s.id = "enemy1" ∧
      overlaps (stepPos ⟨false, false, false, true⟩ 800 600 (150, 150)).1
        (stepPos ⟨false, false, false, true⟩ 800 600 (150, 150)).2 s = true := by
  have h := c9_commit_and_overlap staticSprites ⟨false, false, false, true⟩
    800 600 ⟨(150, 150), none⟩ rfl
  exact ⟨h.1.trans (by decide), h.2 "enemy1" (by decide)⟩

/-- Claim C2 (counterexample): at a tick whose new footprint overlaps two
obstacles at once, the recorded trigger is the id of the second (last)
overlapping obstacle in iteration order, not the first: the collision loop
has no early exit and each later overlapping obstacle overwrites the
trigger. -/
theorem c2_first_wins_counterexample :
    overlaps 110 100 ⟨"a", 100, 100, "blue"⟩ = true ∧
    overlaps 110 100 ⟨"b", 120, 100, "green"⟩ = true ∧
    (tick [⟨"a", 100, 100, "blue"⟩, ⟨"b", 120, 100, "green"⟩]
        ⟨false, false, false, false⟩ 800 600 ⟨(110, 100), none⟩).activeMenu =
      some "b" ∧
    ("b" : String) ≠ "a" :=
  ⟨by decide, by decide, by decide, by decide⟩

/-- Claim C2 (amended): on a tick from the RUNNING state the recorded
ActiveTrigger is the id of the LAST overlapping obstacle in iteration
(catalog) order, and the loop leaves the RUNNING state whenever at least
one obstacle overlaps the new footprint. -/
theorem c2_last_overlap_trigger (sprites : List StaticSprite) (k : Keys)
    (vw vh : Int) (st : GameState) (h : st.activeMenu = none) :
    (tick sprites k vw vh st).activeMenu =
      ((sprites.reverse.find? fun s =>
          overlaps (stepPos k vw vh st.pos).1 (stepPos k vw vh st.pos).2 s).map
        (fun s => s.id)) ∧
    ∀ s ∈ sprites,
      overlaps (stepPos k vw vh st.pos).1 (stepPos k vw vh st.pos).2 s = true →
        (tick sprites k vw vh st).activeMenu ≠ none := by
  unfold tick
  rw [h]
  refine ⟨checkCollision_eq sprites _ _, ?_⟩
  intro s hs hov hnone
  have hsome : (sprites.reverse.find? fun x =>
      overlaps (stepPos k vw vh st.pos).1 (stepPos k vw vh st.pos).2 x).isSome :=
    List.find?_isSome.mpr ⟨s, List.mem_reverse.mpr hs, hov⟩
  rw [checkCollision_eq] at hnone
  cases hfind : sprites.reverse.find? (fun x =>
      overlaps (stepPos k vw vh st.pos).1 (stepPos k vw vh st.pos).2 x) with
  | some v => rw [hfind] at hnone; cases hnone
  | none => rw [hfind] at hsome; cases hsome

/-- Witness for the amended C2 at the double-overlap state: the trigger
equals the id of the last overlapping obstacle. -/
theorem c2_last_overlap_trigger_witness :
    (tick [⟨"a", 100, 100, "blue"⟩, ⟨"b", 120, 100, "green"⟩]
        ⟨false, false, false, false⟩ 800 600 ⟨(110, 100), none⟩).activeMenu =
      (([⟨"a", 100, 100, "blue"⟩, ⟨"b", 120, 100, "green"⟩].reverse.find?
          fun s =>
            overlaps
              (stepPos ⟨false, false, false, false⟩ 800 600 (110, 100)).1
              (stepPos ⟨false, false, false, false⟩ 800 600 (110, 100)).2
              s).map (fun s => s.id)) :=
  (c2_last_overlap_trigger [⟨"a", 100, 100, "blue"⟩, ⟨"b", 120, 100, "green"⟩]
    ⟨false, false, false, false⟩ 800 600 ⟨(110, 100), none⟩ rfl).1

set_option maxRecDepth 10000 in
/-- Claim C10: the dismiss transition from a PAUSED state whose trigger
resolves to an obstacle moves each coordinate by exactly 10 (decrement when
the player coordinate is strictly below the obstacle coordinate, increment
otherwise, including equality) with no boundary clamp, and some reachable
state is nudged outside the boundary box. -/
theorem c10_nudge_unclamped :
    (∀ (sprites : List StaticSprite) (st : GameState) (mid : String)
        (s : StaticSprite), st.activeMenu = some mid →
        sprites.find? (fun x => x.id == mid) = some s →
        dismiss sprites st =
          ⟨(if st.pos.1 < s.x then st.pos.1 - 10 else st.pos.1 + 10,
            if st.pos.2 < s.y then st.pos.2 - 10 else st.pos.2 + 10), none⟩) ∧
    ∃ st : GameState, Reachable staticSprites 400 201 st ∧
      st.activeMenu ≠ none ∧
      ¬ inBounds 400 201 (dismiss staticSprites st).pos := by
  constructor
  · intro sprites st mid s h1 h2
    unfold dismiss
    rw [h1]
    dsimp only
    rw [h2]
    rfl
  · refine ⟨run staticSprites ⟨false, false, false, true⟩ 400 201 31
      (run staticSprites ⟨false, true, false, false⟩ 400 201 30
        ⟨(0, 0), none⟩), ?_, ?_, ?_⟩
    · exact reachable_run staticSprites ⟨false, false, false, true⟩ 400 201 31 _
        (reachable_run staticSprites ⟨false, true, false, false⟩ 400 201 30 _
          Reachable.init)
    · decide
    · decide

/-- Witness for C10 at the reachable paused state (155,150) against the
obstacle at (200,150): the player is left of the obstacle and level with it,
so x decrements and y increments, landing at (145,160). -/
theorem c10_nudge_unclamped_witness :
    dismiss staticSprites ⟨(155, 150), some "enemy1"⟩ = ⟨(145, 160), none⟩ :=
  (c10_nudge_unclamped.1 staticSprites ⟨(155, 150), some "enemy1"⟩ "enemy1"
    ⟨"enemy1", 200, 150, "blue"⟩ rfl (by decide)).trans (by decide)

/-- Claim C1 (counterexample): at the catalog record bg12 (a member of the
fixed catalog) and the non-blank input "city city", the score computed by
keywordMatch is 25 (each of the two identical words adds +10, the phrase
bonus adds +5) while the reference definition written from the spec
sentence gives 18 (+10 once for a word equal to the tag, +3 once for a word
longer than 3 characters that is a substring of the tag, +5 for the phrase):
the source scores per word and with mutually exclusive branches, not once
per rule per tag. -/
theorem c1_per_word_scoring_counterexample :
    (⟨"bg12", "city_night_skyline.png", ["city", "night", "skyline"]⟩ :
        BackgroundImage) ∈ backgrounds ∧
    scoreBg "city city"
      ⟨"bg12", "city_night_skyline.png", ["city", "night", "skyline"]⟩ = 25 ∧
    specRefScoreBg "city city"
      ⟨"bg12", "city_night_skyline.png", ["city", "night", "skyline"]⟩ = 18 ∧
    (25 : Nat) ≠ 18 :=
  ⟨by decide, by decide, by decide, by decide⟩

/-- Claim C1 (amended): with the per-word scoring actually implemented (each
input word contributes, exclusively, +10 when it equals the tag, else +3
when longer than 3 characters and a substring of the tag, else +3 when the
tag is longer than 3 characters and a substring of the word; the +5
full-phrase bonus stays additive), keywordMatch returns the record with the
strictly highest cumulative score, ties keeping the first record in catalog
order, with the default returned when every record scores 0 — at the fixed
catalog and at every catalog. -/
theorem c1_selection_amended (input : String) :
    keywordMatch input = specSelect backgrounds defaultBackground input ∧
    ∀ (catalog : List BackgroundImage) (dflt : BackgroundImage),
      keywordMatchOn catalog dflt input = specSelect catalog dflt input := by
  have hgen : ∀ (catalog : List BackgroundImage) (dflt : BackgroundImage),
      keywordMatchOn catalog dflt input = specSelect catalog dflt input := by
    intro catalog dflt
    unfold keywordMatchOn specSelect
    rw [kmGo_fst_eq]
    by_cases h : bestScoreOn input catalog = 0
    · rw [if_pos (by omega), if_pos h]
    · rw [if_neg (by omega), if_neg h]
  exact ⟨hgen backgrounds defaultBackground, hgen⟩

/-- Claim C3: the resolver is total (the embedding returns a record for
every input and fetch outcome, modelling the never-rejecting promise), the
resolved record is always a member of the catalog, and on any external-call
failure — the thrown/caught path or a returned id matching no record — the
result is exactly the keyword fallback on the same input. -/
theorem c3_resolver_total (hasKey : Bool) (resp : FetchOutcome) (input : String) :
    matchBackground hasKey resp input ∈ backgrounds ∧
    ((resp = FetchOutcome.fail ∨
        ∃ mid, resp = FetchOutcome.ok mid ∧
          backgrounds.find? (fun bg => bg.id == mid) = none) →
      trimL input.data ≠ [] → hasKey = true →
      matchBackground hasKey resp input = keywordMatch input) := by
  constructor
  · unfold matchBackground matchBackgroundT
    by_cases h1 : trimL input.data = []
    · rw [if_pos h1]
      exact (by decide : defaultBackground ∈ backgrounds)
    · rw [if_neg h1]
      cases hasKey with
      | false => exact keywordMatch_mem input
      | true =>
        cases resp with
        | fail => exact keywordMatch_mem input
        | ok mid =>
          dsimp only
          cases hfind : backgrounds.find? (fun bg => bg.id == mid) with
          | some bg => exact List.mem_of_find?_eq_some hfind
          | none => exact keywordMatch_mem input
  · rintro hfail hne hkey
    unfold matchBackground matchBackgroundT
    rw [if_neg hne, hkey]
    rcases hfail with rfl | ⟨mid, rfl, hfind⟩
    · rfl
    · dsimp only
      rw [hfind]
      rfl

/-- Witness for C3: with a key configured and a 2xx response carrying an id
not present in the catalog, the resolver returns the keyword fallback, which
is a catalog member. -/
theorem c3_resolver_total_witness :
    matchBackground true (FetchOutcome.ok "zzz") "city" = keywordMatch "city" ∧
    matchBackground true (FetchOutcome.ok "zzz") "city" ∈ backgrounds := by
  have h := c3_resolver_total true (FetchOutcome.ok "zzz") "city"
  exact ⟨h.2 (Or.inr ⟨"zzz", rfl, by decide⟩) (by decide) rfl, h.1⟩

/-- Claim C6: for every input consisting only of whitespace (the empty
string included), the resolver returns the default record with no external
call attempted (the flag of `matchBackgroundT` is false), and keywordMatch
on the same input also returns the default record. -/
theorem c6_blank_default (hasKey : Bool) (resp : FetchOutcome) (input : String)
    (h : ∀ c ∈ input.data, isSpace c = true) :
    matchBackgroundT hasKey resp input = (defaultBackground, false) ∧
    keywordMatch input = defaultBackground := by
  constructor
  · unfold matchBackgroundT
    rw [if_pos (trimL_blank h)]
  · exact keywordMatch_blank input h

/-- Witness for C6 at a two-space input. -/
theorem c6_blank_default_witness :
    matchBackgroundT true FetchOutcome.fail "  " = (defaultBackground, false) ∧
    keywordMatch "  " = defaultBackground :=
  c6_blank_default true FetchOutcome.fail "  " (by decide)

/-- Claim C7: whenever one of a record's tags occurs verbatim as a whole
whitespace-delimited word of the input, the record's cumulative score in
keywordMatch is at least 10. -/
theorem c7_exact_word_ten (input : String) (bg : BackgroundImage) (tag : String)
    (htag : tag ∈ bg.tags) (hword : tag.data ∈ splitWs input.data) :
    10 ≤ scoreBg input bg := by
  unfold scoreBg
  have hmem : tagScore (splitWs (lowerL input.data)) (lowerL input.data)
      (lowerL tag.data) ∈ (bg.tags.map fun t =>
        tagScore (splitWs (lowerL input.data)) (lowerL input.data)
          (lowerL t.data)) :=
    List.mem_map.mpr ⟨tag, htag, rfl⟩
  refine le_trans ?_ (List.single_le_sum (fun x _ => Nat.zero_le x) _ hmem)
  unfold tagScore
  have hwl : lowerL tag.data ∈ splitWs (lowerL input.data) := by
    rw [splitWs_lower]
    exact List.mem_map.mpr ⟨tag.data, hword, rfl⟩
  have h10 : wordContrib (lowerL tag.data) (lowerL tag.data) = 10 := by
    unfold wordContrib
    rw [if_pos rfl]
  have hsum : (10 : Nat) ≤
      ((splitWs (lowerL input.data)).map (wordContrib (lowerL tag.data))).sum := by
    have hm : (10 : Nat) ∈
        (splitWs (lowerL input.data)).map (wordContrib (lowerL tag.data)) :=
      List.mem_map.mpr ⟨lowerL tag.data, hwl, h10⟩
    exact List.single_le_sum (fun x _ => Nat.zero_le x) _ hm
  exact le_trans hsum (Nat.le_add_right _ _)

/-- Witness for C7: the tag "city" of bg12 occurs as a whole word of
"big city". -/
theorem c7_exact_word_ten_witness :
    10 ≤ scoreBg "big city"
      ⟨"bg12", "city_night_skyline.png", ["city", "night", "skyline"]⟩ :=
  c7_exact_word_ten "big city"
    ⟨"bg12", "city_night_skyline.png", ["city", "night", "skyline"]⟩ "city"
    (by decide) (by decide)
